import Mathlib

/-!
Shallow embedding of the timemory GOTCHA dynamic function-interception engine,
translated from `src/source/timemory/components/gotcha/components.cpp`.

Modelling conventions:
* The template parameters `Nt`, `BundleT`, `DiffT` select one engine instance;
  the per-instance persistent data (`get_data()`, counters, lists, flags) is
  gathered into one explicit `EngineState` record.
* `gotcha_data::suppression` and `gotcha_data::debug` are pointers in the
  source, but the only assignments ever performed point them at the global
  suppression flag (`gotcha_suppression::get()`) and at `settings::debug()`;
  they are therefore modelled as booleans recording whether the pointer is
  set, and a dereference reads `EngineState.globalSuppression` /
  `EngineState.settingsDebug`.
* The `constructor`/`destructor` closures recorded at fill time always are
  `construct<N>` applied to the captured arguments and `revert<N>`; a slot
  stores the captured arguments (`ctorArgs`) and whether a destructor was
  recorded (`hasDtor`).  Invoking an untouched (default `std::function`)
  closure is modelled as a no-op.
* Backend effects (the GOTCHA wrap installation, priority updates), closure
  invocations, diagnostic prints and calls of the real wrapped function are
  recorded in a ghost event trace returned next to the new state; they never
  influence the engine state itself.
* The `gotcha_suppression::auto_toggle` scopes raise the global suppression
  flag on entry and restore it on exit; none of the code executed inside such
  a scope reads the flag's value (only its address is taken), so at function
  boundaries the net effect on the returned state is the identity.
* `init_storage`, `storage_type::instance()->add_hash_id` and stream output
  touch only the storage/logging subsystems, which are outside the engine
  state.
-/

namespace Gotcha

/-- One interception slot (`gotcha_data` in the source), default-initialized
exactly as the C++ member initializers do. -/
structure Slot where
  ready : Bool := false
  filled : Bool := false
  is_active : Bool := false
  is_finalized : Bool := false
  priority : Int := 0
  tool_id : String := ""
  wrap_id : String := ""
  suppression : Bool := false
  debug : Bool := false
  ctorArgs : Option (String × Int × String) := none
  hasDtor : Bool := false
  deriving DecidableEq, Repr, Inhabited

/-- The engine-wide persistent state of one gotcha component instance. -/
structure EngineState where
  slots : List Slot
  started : Int := 0
  thread_started : Int := 0
  is_configured : Bool := false
  default_ready : Bool := false
  permit_list : List String := []
  reject_list : List String := []
  suppresses : List String := []
  globalSuppression : Bool := false
  settingsDebug : Bool := false
  voidOp : Bool := true
  initializer : List (Nat × String × Int × String) := []
  isFinalizing : Bool := false
  deriving DecidableEq, Repr

/-- Ghost trace events: backend calls, closure invocations, diagnostics and
invocations of the real wrapped function. -/
inductive Event where
  | wrapInstall (n : Nat) (sym : String)
  | setPrio (n : Nat) (p : Int)
  | ctorCall (n : Nat)
  | dtorCall (n : Nat)
  | logNullWrappee (n : Nat)
  | logNotReady (n : Nat)
  | bundleRun (n : Nat)
  | realCall
  deriving DecidableEq, Repr

/-- `pat.isPrefixOf` applied along every suffix: the analogue of
`std::string::find(pat) != npos`. -/
def strContainsAux (pat : List Char) : List Char → Bool
  | [] => pat.isPrefixOf ([] : List Char)
  | c :: cs => pat.isPrefixOf (c :: cs) || strContainsAux pat cs

/-- `s.find(pat) != std::string::npos`. -/
def strContains (s pat : String) : Bool :=
  strContainsAux pat.data s.data

/-- The `tofortran` lambda of `gotcha::is_permitted`: lowercase every
character, then append `_` unless the last character already is `_`
(the source indexes `_fort[_fort.length() - 1]`, so it is only ever applied
to non-empty names). -/
def toFortran (s : String) : String :=
  let low := String.mk (s.data.map Char.toLower)
  if low.data.getLast? = some '_' then low else low ++ "_"

/-- The built-in MPI deny-list of `gotcha::is_permitted`. -/
def mpiRejectList : List String :=
  ["MPI_Pcontrol", "MPI_T_init_thread", "MPI_Comm_split", "MPI_Abort",
   "MPI_Comm_split_type"]

/-- Fuel-driven core of `collapseSlashes`; the fuel is the list length, which
bounds the number of erasures the source's `while` loop can perform. -/
def collapseSlashesAux : Nat → List Char → List Char
  | 0, l => l
  | _ + 1, [] => []
  | fuel + 1, c1 :: rest =>
    match rest with
    | [] => [c1]
    | c2 :: rest' =>
      if c1 = '/' && c2 = '/' then collapseSlashesAux fuel ('/' :: rest')
      else c1 :: collapseSlashesAux fuel (c2 :: rest')

/-- The label clean-up loop of `gotcha::construct`:
`while(_label.find("//") != npos) _label.erase(_label.find("//"), 1);`
i.e. every run of consecutive slashes is collapsed to a single slash. -/
def collapseSlashes (l : List Char) : List Char :=
  collapseSlashesAux l.length l

/-- Modelled from the spec: the source calls `demangle` (defined in the
utility headers, which are not part of the provided sources) on the symbol
name; per the spec the label is the symbol name, optionally tool-prefixed,
and demangling a plain C symbol name is the identity. -/
def demangle (s : String) : String := s

/-- Label derivation in the fill branch of `gotcha::construct`: demangle,
then prefix with `tool + "/"` when a non-empty tool label is given and the
label does not already start with it, collapsing duplicate separators. -/
def deriveLabel (tool func : String) : String :=
  let label := demangle func
  if tool ≠ "" && !(String.isPrefixOf (tool ++ "/") label) then
    String.mk (collapseSlashes (tool ++ "/" ++ label).data)
  else label

/-- `gotcha::is_permitted` with its state dependencies made explicit:
`voidOp` is `std::is_same<operator_type, void>::value`. -/
def is_permitted_core (voidOp : Bool) (permit reject : List String)
    (func : String) : Bool :=
  if voidOp && (strContains func "MPI_" || strContains func "mpi_") &&
      mpiRejectList.any (fun itr => func == itr || func == toFortran itr) then
    false
  else if reject.contains func then
    false
  else if !permit.isEmpty && !permit.contains func then
    false
  else
    true

/-- `gotcha::is_permitted`. -/
def is_permitted (s : EngineState) (func : String) : Bool :=
  is_permitted_core s.voidOp s.permit_list s.reject_list func

/-- `gotcha::add_global_suppression`: `get_suppresses().insert(func)`. -/
def add_global_suppression (func : String) (s : EngineState) : EngineState :=
  if s.suppresses.contains func then s
  else { s with suppresses := func :: s.suppresses }

/-- `gotcha::revert<N>`: under a suppression scope, if the slot is filled and
active, deactivate it, reset the backend priority, and recompute `ready`
(note: the source looks the *tool label* `tool_id` up in the suppression
registry here, not the wrapped symbol `wrap_id`).  Returns
`(filled, new state, ghost events)`. -/
def revert (n : Nat) (s : EngineState) : Bool × EngineState × List Event :=
  let d := s.slots.getD n default
  if d.filled && d.is_active then
    let d' := { d with
      is_active := false,
      ready := if s.suppresses.contains d.tool_id then false
               else s.default_ready }
    (d'.filled, { s with slots := s.slots.set n d' }, [Event.setPrio n (-1)])
  else
    (d.filled, s, [])

/-- The `_data.debug == nullptr` initialization block of `gotcha::construct`:
point the slot's debug reference at `settings::debug()` if unset. -/
def debugStep (d : Slot) : Slot :=
  if d.debug then d else { d with debug := true }

/-- The `if(!_data.filled)` block of `gotcha::construct`: derive the label,
fill the metadata, compute `ready` (overridden to false with the suppression
reference set when the symbol is globally suppressed), record the
constructor/destructor closures and install the backend binding. -/
def fillStep (n : Nat) (func : String) (prio : Int) (tool : String)
    (s : EngineState) (d : Slot) : Slot × List Event :=
  if !d.filled then
    ({ d with
        filled := true
        priority := prio
        tool_id := deriveLabel tool func
        wrap_id := func
        ready := if s.suppresses.contains func then false
                 else s.default_ready
        suppression := s.suppresses.contains func || d.suppression
        ctorArgs := some (func, prio, tool)
        hasDtor := true },
      [Event.wrapInstall n func])
  else (d, ([] : List Event))

/-- The `if(!_data.is_active)` block of `gotcha::construct`: reactivate and
request a backend priority update. -/
def actStep (n : Nat) (d : Slot) : Slot × List Event :=
  if !d.is_active then
    ({ d with is_active := true }, [Event.setPrio n d.priority])
  else (d, ([] : List Event))

/-- The slot written back by `construct`'s debug/fill/activate steps
(reducible abbreviation for the proofs below). -/
@[reducible] def constructSlot (n : Nat) (func : String) (prio : Int)
    (tool : String) (s : EngineState) : Slot :=
  (actStep n (fillStep n func prio tool s
    (debugStep (s.slots.getD n default))).1).1

/-- The engine state after `construct` has written the slot back, before the
possible trailing revert (reducible abbreviation for the proofs below). -/
@[reducible] def constructState (n : Nat) (func : String) (prio : Int)
    (tool : String) (s : EngineState) : EngineState :=
  { s with slots := s.slots.set n (constructSlot n func prio tool s) }

/-- `gotcha::construct<N, Ret, Args...>`: reject empty names, run the filter,
fill the slot on first use (recording the constructor/destructor closures and
installing the backend binding), reactivate an inactive slot, and revert a
slot whose `ready` flag ends up false.  Returns
`(filled, new state, ghost events)`. -/
def construct (n : Nat) (func : String) (prio : Int) (tool : String)
    (s : EngineState) : Bool × EngineState × List Event :=
  if func = "" then (false, s, [])
  else if !is_permitted s func then (false, s, [])
  else
    let fill := fillStep n func prio tool s (debugStep (s.slots.getD n default))
    let act := actStep n fill.1
    let s3 := { s with slots := s.slots.set n act.1 }
    if !act.1.ready then
      let rev := revert n s3
      (rev.1, rev.2.1, fill.2 ++ act.2 ++ rev.2.2)
    else
      (act.1.filled, s3, fill.2 ++ act.2)

/-- `gotcha::configure<N, Ret, Args...>(func, priority, tool)`: forwards to
`construct`. -/
def configure (n : Nat) (func : String) (prio : Int) (tool : String)
    (s : EngineState) : Bool × EngineState × List Event :=
  construct n func prio tool s

/-- The per-slot step of the `gotcha::get_info` accumulation loop. -/
def infoStep (glob : Bool) (info : List Nat) (d : Slot) : List Nat :=
  [ info.getD 0 0 + (if d.ready then 1 else 0),
    info.getD 1 0 + (if d.filled then 1 else 0),
    info.getD 2 0 + (if d.is_active then 1 else 0),
    info.getD 3 0 + (if d.is_finalized then 1 else 0),
    info.getD 4 0 + (if d.suppression && !glob then 1 else 0) ]

/-- `gotcha::get_info`: fold the counting loop over all slots starting from
five zeroes (`_info.fill(0)`); the fifth entry tests
`itr.suppression && !(*itr.suppression)`, where the suppression pointer, when
set, aliases the global suppression flag. -/
def get_info (s : EngineState) : List Nat :=
  s.slots.foldl (infoStep s.globalSuppression) [0, 0, 0, 0, 0]

/-- Invoke slot `n`'s recorded constructor closure
(`construct` re-applied to the captured arguments; a never-recorded closure
is a no-op). -/
def runCtor (n : Nat) (s : EngineState) : EngineState × List Event :=
  match (s.slots.getD n default).ctorArgs with
  | some cap =>
    let r := construct n cap.1 cap.2.1 cap.2.2 s
    (r.2.1, Event.ctorCall n :: r.2.2)
  | none => (s, [Event.ctorCall n])

/-- Invoke slot `n`'s recorded destructor closure (`revert<N>`; a
never-recorded closure is a no-op). -/
def runDtor (n : Nat) (s : EngineState) : EngineState × List Event :=
  if (s.slots.getD n default).hasDtor then
    let r := revert n s
    (r.2.1, Event.dtorCall n :: r.2.2)
  else (s, [Event.dtorCall n])

/-- Sequential loop over a list of slot indices, threading the state and
concatenating the ghost events. -/
def slotLoop (f : Nat → EngineState → EngineState × List Event) :
    List Nat → EngineState → EngineState × List Event
  | [], s => (s, [])
  | i :: is, s =>
    let r1 := f i s
    let r2 := slotLoop f is r1.1
    (r2.1, r1.2 ++ r2.2)

/-- `for(auto& itr : get_data())` over all `Nt` slots. -/
def foldSlots (f : Nat → EngineState → EngineState × List Event)
    (s : EngineState) : EngineState × List Event :=
  slotLoop f (List.range s.slots.length) s

/-- Run the user initializer: a sequence of `configure(slot, func, prio,
tool)` requests (the shape every use of `get_initializer` in the repository
has). -/
def runInit : List (Nat × String × Int × String) → EngineState →
    EngineState × List Event
  | [], s => (s, [])
  | cmd :: cmds, s =>
    let r := construct cmd.1 cmd.2.1 cmd.2.2.1 cmd.2.2.2 s
    let rr := runInit cmds r.2.1
    (rr.1, r.2.2 ++ rr.2)

/-- The no-argument `gotcha::configure()`: under the mutex, on the first call
flip `is_configured` and run the user initializer. -/
def configureOnce (s : EngineState) : EngineState × List Event :=
  if s.is_configured then (s, [])
  else runInit s.initializer { s with is_configured := true }

/-- The slot action of `gotcha::disable`'s teardown loop: finalize a
not-yet-finalized slot, then run its destructor. -/
def disableStep (i : Nat) (s : EngineState) : EngineState × List Event :=
  let d := s.slots.getD i default
  if !d.is_finalized then
    runDtor i { s with slots := s.slots.set i { d with is_finalized := true } }
  else (s, [])

/-- `gotcha::disable`: under the mutex, if configured, clear `is_configured`
and finalize-and-destroy every non-finalized slot. -/
def disable (s : EngineState) : EngineState × List Event :=
  if s.is_configured then
    foldSlots disableStep { s with is_configured := false }
  else (s, [])

/-- `gotcha::global_finalize`: drain both counters to zero (the source loops
`while(counter > 0) --counter;`), then `disable`. -/
def global_finalize (s : EngineState) : EngineState × List Event :=
  disable { s with
    started := if 0 < s.started then 0 else s.started,
    thread_started := if 0 < s.thread_started then 0 else s.thread_started }

/-- `gotcha::thread_init`: `ready = filled && default_ready` for every slot. -/
def thread_init (s : EngineState) : EngineState :=
  { s with slots :=
      s.slots.map (fun d => { d with ready := d.filled && s.default_ready }) }

/-- The slot action of `gotcha::start`'s constructor loop: re-run the
constructor closure of every non-finalized slot. -/
def startCtorStep (i : Nat) (s : EngineState) : EngineState × List Event :=
  if !(s.slots.getD i default).is_finalized then runCtor i s
  else (s, [])

/-- The `if(_t == 0 && !is_configured()) configure();` step of
`gotcha::start`. -/
def startConfigStep (t : Int) (s1 : EngineState) : EngineState × List Event :=
  if t = 0 && !s1.is_configured then configureOnce s1 else (s1, [])

/-- The `if(_n == 0)` block of `gotcha::start`: configure once, then re-run
every non-finalized slot's constructor closure. -/
def startGlobalStep (n : Int) (s2 : EngineState) : EngineState × List Event :=
  if n = 0 then
    let ra := configureOnce s2
    let rb := foldSlots startCtorStep ra.1
    (rb.1, ra.2 ++ rb.2)
  else (s2, [])

/-- The `if(_t == 0)` block of `gotcha::start`: `ready = filled` on every
slot. -/
def startReadyStep (t : Int) (s3 : EngineState) : EngineState :=
  if t = 0 then
    { s3 with slots := s3.slots.map (fun d => { d with ready := d.filled }) }
  else s3

/-- `gotcha::start`: bail out while storage is finalizing; post-increment both
counters; configure once on a thread's first entry; on the process-wide first
entry re-run every non-finalized slot's constructor; on a thread's first entry
set `ready = filled` on every slot. -/
def start (s : EngineState) : EngineState × List Event :=
  if s.isFinalizing then (s, [])
  else
    let n := s.started
    let t := s.thread_started
    let s1 := { s with started := n + 1, thread_started := t + 1 }
    let r2 := startConfigStep t s1
    let r3 := startGlobalStep n r2.1
    (startReadyStep t r3.1, r2.2 ++ r3.2)

/-- The slot action of `gotcha::stop`'s destructor loop. -/
def stopDtorStep (i : Nat) (s : EngineState) : EngineState × List Event :=
  if !(s.slots.getD i default).is_finalized then runDtor i s
  else (s, [])

/-- The `if(_t == 0)` block of `gotcha::stop`: `ready = false` on every
slot. -/
def stopReadyStep (t : Int) (s1 : EngineState) : EngineState :=
  if t = 0 then
    { s1 with slots := s1.slots.map (fun d => { d with ready := false }) }
  else s1

/-- The `if(_n == 0)` block of `gotcha::stop`: run every non-finalized slot's
destructor closure. -/
def stopDtorPhase (n : Int) (s2 : EngineState) : EngineState × List Event :=
  if n = 0 then foldSlots stopDtorStep s2 else (s2, [])

/-- `gotcha::stop`: pre-decrement both counters; when the thread counter
reaches zero clear every slot's `ready`; when the global counter reaches zero
run every non-finalized slot's destructor. -/
def stop (s : EngineState) : EngineState × List Event :=
  let n := s.started - 1
  let t := s.thread_started - 1
  let s1 := { s with started := n, thread_started := t }
  stopDtorPhase n (stopReadyStep t s1)

/-- Result of one dispatched call through `gotcha::wrap`: the returned value,
the new engine state, the ghost events, and the arguments the real function
was invoked with (`none` when it was not invoked). -/
structure DispatchResult (α β : Type) where
  ret : β
  state : EngineState
  events : List Event
  callArgs : Option α

/-- `gotcha::wrap<N, Ret, Args...>`: the hot-path dispatcher.  `wrappee` is
the resolved real-function pointer (`gotcha_get_wrappee`), `none` modelling a
null pointer.  The transient `_protect_tls_alloc` latch is always false at
both points where it is read in a (sequentialized) call, so it does not
appear.  In the instrumented branch the slot's `ready` flag ends true (it was
true to enter the branch) and both suppression toggles are restored, so the
net state effect is writing `ready := true` back to the slot. -/
def wrap (n : Nat) {α β : Type} [Inhabited β] (wrappee : Option (α → β))
    (args : α) (s : EngineState) : DispatchResult α β :=
  let d := s.slots.getD n default
  match wrappee with
  | none =>
    { ret := default, state := s, events := [Event.logNullWrappee n],
      callArgs := none }
  | some f =>
    if d.is_finalized then
      { ret := f args, state := s, events := [Event.realCall],
        callArgs := some args }
    else
      let suppress :=
        s.globalSuppression || (d.suppression && s.globalSuppression)
      if !d.ready || suppress then
        { ret := f args, state := s,
          events := (if d.debug && s.settingsDebug then [Event.logNotReady n]
                     else []) ++ [Event.realCall],
          callArgs := some args }
      else
        { ret := f args,
          state := { s with slots := s.slots.set n { d with ready := true } },
          events := [Event.bundleRun n, Event.realCall],
          callArgs := some args }

/-- `gotcha::wrap_void<N, Args...>`: as `wrap` for a void-returning symbol;
returns the new state, the ghost events, and the arguments passed to the real
function (`none` when it was not invoked). -/
def wrap_void (n : Nat) {α : Type} (wrappee : Option (α → Unit)) (args : α)
    (s : EngineState) : EngineState × List Event × Option α :=
  let d := s.slots.getD n default
  match wrappee with
  | none => (s, [Event.logNullWrappee n], none)
  | some _ =>
    if d.is_finalized then (s, [Event.realCall], some args)
    else
      let suppress :=
        s.globalSuppression || (d.suppression && s.globalSuppression)
      if !d.ready || suppress then
        (s, (if d.debug && s.settingsDebug then [Event.logNotReady n]
             else []) ++ [Event.realCall], some args)
      else
        ({ s with slots := s.slots.set n { d with ready := true } },
         [Event.bundleRun n, Event.realCall], some args)

/-- `N` consecutive `start()` calls, accumulating the ghost events. -/
def startN : Nat → EngineState → EngineState × List Event
  | 0, s => (s, [])
  | k + 1, s =>
    let r1 := start s
    let r2 := startN k r1.1
    (r2.1, r1.2 ++ r2.2)

/-- `N` consecutive `stop()` calls, accumulating the ghost events. -/
def stopN : Nat → EngineState → EngineState × List Event
  | 0, s => (s, [])
  | k + 1, s =>
    let r1 := stop s
    let r2 := stopN k r1.1
    (r2.1, r1.2 ++ r2.2)

/-- Number of binding installations (`backend::gotcha::wrap` calls) in a
trace. -/
def installCount (ev : List Event) : Nat :=
  ev.countP (fun e => match e with
    | Event.wrapInstall _ _ => true
    | _ => false)

/-- Number of invocations of slot `i`'s constructor closure in a trace. -/
def ctorCount (i : Nat) (ev : List Event) : Nat :=
  ev.countP (fun e => match e with
    | Event.ctorCall j => j == i
    | _ => false)

/-- Number of invocations of slot `i`'s destructor closure in a trace. -/
def dtorCount (i : Nat) (ev : List Event) : Nat :=
  ev.countP (fun e => match e with
    | Event.dtorCall j => j == i
    | _ => false)

/-- Invariant skeleton: an operation neither changes the finalizing flag, nor
the number of slots, nor any slot's `is_finalized` flag. -/
def SameSkel (s s' : EngineState) : Prop :=
  s'.isFinalizing = s.isFinalizing ∧
  s'.slots.length = s.slots.length ∧
  ∀ i, (s'.slots.getD i default).is_finalized
    = (s.slots.getD i default).is_finalized

/-- An operation leaves both activation counters unchanged. -/
def KeepsCounters (s s' : EngineState) : Prop :=
  s'.started = s.started ∧ s'.thread_started = s.thread_started

/-- Modelled from the spec's words for claim comparison: a slot is *currently
suppressed* when the Call Dispatcher's suppression test
`global_suppression || (slot.suppression && *slot.suppression)` holds for it;
this counts the currently suppressed slots. -/
def specSuppressedCount (s : EngineState) : Nat :=
  s.slots.countP
    (fun d => s.globalSuppression || (d.suppression && s.globalSuppression))

/-- A one-slot engine in its initial state (one statically-known interception
point, nothing configured, empty lists, generic `void` operator type). -/
def baseState : EngineState :=
  { slots := [default] }

/-- `baseState` with `default_ready` switched on
(`gotcha::get_default_ready() = true`). -/
def defReadyState : EngineState :=
  { baseState with default_ready := true }

/-- `baseState` with `"MPI_Abort"` placed on the permit list. -/
def permitMPIState : EngineState :=
  { baseState with permit_list := ["MPI_Abort"] }

/-- Engine state after `add_global_suppression("free")` with
`default_ready = true`. -/
def suppressedFreeState : EngineState :=
  add_global_suppression "free" defReadyState

/-- A slot that has been filled for symbol `"malloc"` and then finalized and
torn down by `disable` (with `default_ready = true`, its destructor left
`ready = true`). -/
def finalizedSlot : Slot :=
  { filled := true, is_active := false, ready := true, is_finalized := true,
    tool_id := "malloc", wrap_id := "malloc", debug := true,
    ctorArgs := some ("malloc", 0, ""), hasDtor := true }

/-- A one-slot engine whose slot is finalized. -/
def finalizedState : EngineState :=
  { slots := [finalizedSlot], default_ready := true }

/-- A one-slot engine whose slot carries a suppression reference while the
global suppression flag currently reads false. -/
def suppressedRefState : EngineState :=
  { baseState with slots := [{ suppression := true }] }

/-- A two-slot engine with slot 0 filled for symbol `"m"` (closures recorded)
and slot 1 empty, counters at zero: the initial state of the nested
start/stop scenario. -/
def twoSlotState : EngineState :=
  { slots := [{ filled := true, tool_id := "m", wrap_id := "m",
                debug := true, ctorArgs := some ("m", 0, ""),
                hasDtor := true }, default] }

/-- The slot written back by the active branch of `revert` (abbreviation used
by the compute lemmas below). -/
def revertedSlot (s : EngineState) (d : Slot) : Slot :=
  { d with
    is_active := false,
    ready := if s.suppresses.contains d.tool_id then false
             else s.default_ready }

/-- The slot produced by a first, filling `construct` call on an empty slot
for a permitted, non-suppressed symbol under `default_ready = true`, after
the activation step (abbreviation used by the compute lemmas below). -/
def filledActiveSlot (f : String) (p : Int) (t label : String) : Slot :=
  { ready := true, filled := true, is_active := true, is_finalized := false,
    priority := p, tool_id := label, wrap_id := f, suppression := false,
    debug := true, ctorArgs := some (f, p, t), hasDtor := true }

/-! ### Helper lemmas -/

theorem default_slot_eq :
    (default : Slot) =
      { ready := false, filled := false, is_active := false,
        is_finalized := false, priority := 0, tool_id := "", wrap_id := "",
        suppression := false, debug := false, ctorArgs := none,
        hasDtor := false } := rfl

theorem slots_getD_len_le {l : List Slot} {n : Nat} (h : l.length ≤ n) :
    l.getD n default = default := by
  simp [List.getD, List.getElem?_eq_none h]

theorem slots_getD_set_self {l : List Slot} {n : Nat} (d : Slot)
    (h : n < l.length) : (l.set n d).getD n default = d := by
  simp [List.getD, List.getElem?_set_self', List.getElem?_eq_getElem h]

theorem slots_getD_set_ne {l : List Slot} {n i : Nat} (d : Slot)
    (h : i ≠ n) : (l.set n d).getD i default = l.getD i default := by
  simp [List.getD, List.getElem?_set_ne (Ne.symm h)]

theorem revert_active_eq (n : Nat) (s : EngineState)
    (hc : ((s.slots.getD n default).filled &&
      (s.slots.getD n default).is_active) = true) :
    revert n s = ((s.slots.getD n default).filled,
      { s with slots :=
          s.slots.set n (revertedSlot s (s.slots.getD n default)) },
      [Event.setPrio n (-1)]) := by
  simp only [revert, revertedSlot]
  rw [if_pos hc]

theorem revert_inactive_eq (n : Nat) (s : EngineState)
    (hc : ¬ ((s.slots.getD n default).filled &&
      (s.slots.getD n default).is_active) = true) :
    revert n s = ((s.slots.getD n default).filled, s, []) := by
  simp only [revert]
  rw [if_neg hc]

/-! ### Claim theorems -/

/-- C7: `construct` with an empty symbol name returns `false` and leaves the
engine state (in particular every slot) entirely unchanged: no filter check,
no label derivation, no installation, no ghost events. -/
theorem construct_empty_name (n : Nat) (p : Int) (t : String)
    (s : EngineState) : construct n "" p t s = (false, s, []) := rfl

/-- C5: a wrapped call whose resolved real-function pointer is null does not
crash and runs no instrumentation: both `wrap` and `wrap_void` log the
condition once, leave the engine state unchanged, never invoke the real
function, and `wrap` returns the zero-initialized/default result. -/
theorem wrap_null_wrappee (n : Nat) {α β : Type} [Inhabited β] (args : α)
    (s : EngineState) :
    wrap n (none : Option (α → β)) args s =
      { ret := default, state := s, events := [Event.logNullWrappee n],
        callArgs := none } ∧
    wrap_void n (none : Option (α → Unit)) args s =
      (s, [Event.logNullWrappee n], none) := ⟨rfl, rfl⟩

/-- C10: when a wrapped call through `wrap`/`wrap_void` takes the passthrough
branch because the slot is not ready or suppression is in effect (slot not
finalized, real-function pointer non-null), the real function is invoked with
the original arguments, its result is returned unchanged, and the engine
state (in particular every slot field) is unmodified. -/
theorem wrap_passthrough (n : Nat) {α β : Type} [Inhabited β] (f : α → β)
    (g : α → Unit) (args : α) (s : EngineState)
    (hfin : (s.slots.getD n default).is_finalized = false)
    (hpass : (s.slots.getD n default).ready = false ∨
      (s.globalSuppression ||
        ((s.slots.getD n default).suppression && s.globalSuppression))
        = true) :
    (wrap n (some f) args s).ret = f args ∧
    (wrap n (some f) args s).state = s ∧
    (wrap n (some f) args s).callArgs = some args ∧
    (wrap_void n (some g) args s).1 = s ∧
    (wrap_void n (some g) args s).2.2 = some args := by
  unfold wrap wrap_void
  rcases hpass with h | h
  · simp [List.getD] at hfin h
    simp [hfin, h]
  · have hg : s.globalSuppression = true := by
      rcases Bool.or_eq_true_iff.mp h with h1 | h1
      · exact h1
      · exact (Bool.and_eq_true_iff.mp h1).2
    simp [List.getD] at hfin
    simp [hfin, hg]

/-- Witness for C10 at a concrete input: slot 0 of the pristine one-slot
engine is unfilled, hence not ready, so a call passes straight through. -/
theorem wrap_passthrough_witness :
    (baseState.slots.getD 0 default).is_finalized = false ∧
    (baseState.slots.getD 0 default).ready = false ∧
    (wrap 0 (some fun x : Nat => x + 1) (5 : Nat) baseState).ret = 6 ∧
    (wrap 0 (some fun x : Nat => x + 1) (5 : Nat) baseState).state
      = baseState ∧
    (wrap_void 0 (some fun _ : Nat => ()) (5 : Nat) baseState).2.2
      = some 5 := by
  have h := wrap_passthrough 0 (fun x : Nat => x + 1) (fun _ : Nat => ())
    (5 : Nat) baseState (by decide) (Or.inl (by decide))
  exact ⟨by decide, by decide, by simpa using h.1, h.2.1, h.2.2.2.2⟩

/-- C8: `revert` is idempotent: a second `revert` returns the same value and
leaves the state exactly as one `revert` did; and `revert` on a slot that is
not active is a no-op returning the slot's current `filled` value. -/
theorem revert_idempotent (n : Nat) (s : EngineState) :
    ((revert n (revert n s).2.1).2.1 = (revert n s).2.1 ∧
      (revert n (revert n s).2.1).1 = (revert n s).1) ∧
    ((s.slots.getD n default).is_active = false →
      revert n s = ((s.slots.getD n default).filled, s, [])) := by
  constructor
  · by_cases hc : ((s.slots.getD n default).filled &&
        (s.slots.getD n default).is_active) = true
    · have hlt : n < s.slots.length := by
        by_contra hge
        rw [slots_getD_len_le (Nat.le_of_not_lt hge)] at hc
        rw [default_slot_eq] at hc
        simp at hc
      have hgd :
          ({ s with
              slots := s.slots.set n (revertedSlot s (s.slots.getD n default))
            } : EngineState).slots.getD n default
          = revertedSlot s (s.slots.getD n default) := by
        simpa using slots_getD_set_self _ hlt
      rw [revert_active_eq n s hc]
      rw [revert_inactive_eq _ _ (by rw [hgd]; simp [revertedSlot])]
      refine ⟨rfl, ?_⟩
      rw [hgd]
      rfl
    · rw [revert_inactive_eq n s hc]
      rw [revert_inactive_eq n s hc]
      exact ⟨rfl, rfl⟩
  · intro hIA
    exact revert_inactive_eq n s (by rw [hIA]; simp)

/-- Witness for C8's no-op clause at a concrete input: slot 0 of the pristine
engine is inactive, so `revert` changes nothing and returns `filled`
(which is `false` there). -/
theorem revert_idempotent_witness :
    (baseState.slots.getD 0 default).is_active = false ∧
    revert 0 baseState =
      ((baseState.slots.getD 0 default).filled, baseState, []) :=
  ⟨by decide, (revert_idempotent 0 baseState).2 (by decide)⟩

/-- C2: every symbol of the built-in MPI deny-list, and its
lowercase-plus-trailing-underscore transform, is refused by `is_permitted`
for the generic (void `operator_type`) engine, whatever the permit and
reject lists contain. -/
theorem mpi_builtin_denied (s : EngineState) (hvoid : s.voidOp = true) :
    ∀ f ∈ mpiRejectList,
      is_permitted s f = false ∧ is_permitted s (toFortran f) = false := by
  have key : ∀ f : String,
      (strContains f "MPI_" || strContains f "mpi_") = true →
      mpiRejectList.any (fun itr => f == itr || f == toFortran itr) = true →
      is_permitted s f = false := by
    intro f h1 h2
    unfold is_permitted is_permitted_core
    rw [hvoid]
    simp [h1, h2]
  intro f hf
  simp only [mpiRejectList, List.mem_cons, List.not_mem_nil, or_false] at hf
  rcases hf with rfl | rfl | rfl | rfl | rfl <;>
    exact ⟨key _ (by decide) (by decide), key _ (by decide) (by decide)⟩

/-- Witness for C2 at a concrete input: `"MPI_Abort"` is denied even when it
is the only entry of the permit list. -/
theorem mpi_builtin_denied_witness :
    permitMPIState.voidOp = true ∧ "MPI_Abort" ∈ mpiRejectList ∧
    permitMPIState.permit_list.contains "MPI_Abort" = true ∧
    is_permitted permitMPIState "MPI_Abort" = false ∧
    is_permitted permitMPIState (toFortran "MPI_Abort") = false :=
  ⟨rfl, by decide, by decide,
    (mpi_builtin_denied permitMPIState rfl "MPI_Abort" (by decide)).1,
    (mpi_builtin_denied permitMPIState rfl "MPI_Abort" (by decide)).2⟩

/-- C9, counterexample: with one slot holding a suppression reference while
the global suppression flag reads false, `get_info`'s fifth entry is 1 even
though no slot is currently suppressed (the Call Dispatcher's suppression
test is false for every slot), refuting "the number of slots that are
currently suppressed". -/
theorem get_info_suppressed_cex :
    (get_info suppressedRefState).getD 4 0 = 1 ∧
    specSuppressedCount suppressedRefState = 0 ∧
    (get_info suppressedRefState).getD 4 0 ≠
      specSuppressedCount suppressedRefState := by decide

/-- C9, amended: `get_info` returns the counts of ready, filled, active and
finalized slots, and as fifth entry the number of slots that carry a
suppression reference whose referenced flag currently reads false. -/
theorem get_info_counts (s : EngineState) :
    get_info s =
      [s.slots.countP (fun d => d.ready),
       s.slots.countP (fun d => d.filled),
       s.slots.countP (fun d => d.is_active),
       s.slots.countP (fun d => d.is_finalized),
       s.slots.countP (fun d => d.suppression && !s.globalSuppression)] := by
  have gen : ∀ (g : Bool) (l : List Slot) (a b c d e : Nat),
      l.foldl (infoStep g) [a, b, c, d, e] =
        [a + l.countP (fun x => x.ready),
         b + l.countP (fun x => x.filled),
         c + l.countP (fun x => x.is_active),
         d + l.countP (fun x => x.is_finalized),
         e + l.countP (fun x => x.suppression && !g)] := by
    intro g l
    induction l with
    | nil => intro a b c d e; simp
    | cons hd tl ih =>
      intro a b c d e
      rw [List.foldl_cons]
      have hstep : infoStep g [a, b, c, d, e] hd =
          [a + (if hd.ready then 1 else 0),
           b + (if hd.filled then 1 else 0),
           c + (if hd.is_active then 1 else 0),
           d + (if hd.is_finalized then 1 else 0),
           e + (if hd.suppression && !g then 1 else 0)] := by
        simp [infoStep, List.getD]
      rw [hstep, ih]
      simp only [List.countP_cons, List.cons.injEq, and_true]
      refine ⟨?_, ?_, ?_, ?_, ?_⟩ <;> split_ifs <;> omega
  simpa [get_info] using gen s.globalSuppression s.slots 0 0 0 0 0

/-- C6, evaluation at the failing input: after `add_global_suppression
("free")` with `default_ready = true`, `construct(0, "free", 0, "tool")`
fills the slot and sets its suppression reference, but the immediate revert
(triggered because `ready` was set false at fill time) looks the label
`"tool/free"` up in the suppression registry instead of the symbol `"free"`
and therefore resets `ready` to `default_ready = true`: the call ends with
`ready = true`, not the `ready = false` the claim states. -/
theorem suppressed_fill_ready_divergence :
    ((construct 0 "free" 0 "tool" suppressedFreeState).2.1.slots.getD 0
        default).filled = true ∧
    ((construct 0 "free" 0 "tool" suppressedFreeState).2.1.slots.getD 0
        default).suppression = true ∧
    ((construct 0 "free" 0 "tool" suppressedFreeState).2.1.slots.getD 0
        default).ready = true ∧
    suppressedFreeState.suppresses.contains "free" = true ∧
    is_permitted suppressedFreeState "free" = true := by decide

/-- C1, counterexample: with the engine's built-in `default_ready = false`,
the first (filling) `construct` call immediately reverts the slot, so
`is_active` is false after the first call and after the second call —
`is_active` does not remain true across both calls. -/
theorem configure_twice_active_cex :
    ((construct 0 "malloc" 0 "tool" baseState).2.1.slots.getD 0
        default).filled = true ∧
    ((construct 0 "malloc" 0 "tool" baseState).2.1.slots.getD 0
        default).is_active = false ∧
    ((construct 0 "malloc" 0 "tool"
        (construct 0 "malloc" 0 "tool" baseState).2.1).2.1.slots.getD 0
        default).is_active = false := by decide

/-- Compute lemma: a first, filling `construct` call on an empty slot for a
permitted, non-suppressed symbol under `default_ready = true` installs the
binding, records the closures, activates the slot and does not revert. -/
theorem construct_fresh_eq (n : Nat) (f t : String) (p : Int)
    (s : EngineState) (hf : ¬ f = "") (hperm : is_permitted s f = true)
    (hslot : s.slots.getD n default = default)
    (hsup : s.suppresses.contains f = false)
    (hdr : s.default_ready = true) :
    construct n f p t s =
      (true,
       { s with slots :=
           s.slots.set n (filledActiveSlot f p t (deriveLabel t f)) },
       [Event.wrapInstall n f, Event.setPrio n p]) := by
  have hslot' : s.slots.getD n default =
      { ready := false, filled := false, is_active := false,
        is_finalized := false, priority := 0, tool_id := "", wrap_id := "",
        suppression := false, debug := false, ctorArgs := none,
        hasDtor := false } := by rw [hslot]; rfl
  have hsup' : ¬ f ∈ s.suppresses := by simpa using hsup
  simp only [construct, hslot']
  rw [if_neg hf, hperm]
  simp [debugStep, fillStep, actStep, filledActiveSlot, hsup', hdr]

/-- Compute lemma: `construct` on a slot that is already filled, active,
ready and debug-initialized only writes the unchanged slot back: no
installation, no closure recording, no backend call, no revert. -/
theorem construct_active_eq (n : Nat) (f t : String) (p : Int)
    (s : EngineState) (hf : ¬ f = "") (hperm : is_permitted s f = true)
    (hfilled : (s.slots.getD n default).filled = true)
    (hact : (s.slots.getD n default).is_active = true)
    (hready : (s.slots.getD n default).ready = true)
    (hdbg : (s.slots.getD n default).debug = true) :
    construct n f p t s =
      (true, { s with slots := s.slots.set n (s.slots.getD n default) },
       []) := by
  simp only [construct]
  rw [if_neg hf, hperm]
  simp only [List.getD, List.get?_eq_getElem?] at hfilled hact hready hdbg
  simp [debugStep, fillStep, actStep, List.getD, hfilled, hact, hready, hdbg]

/-- C1, amended: calling `construct` twice with the same symbol, priority and
tool label on the same (initially empty) slot installs the Interposer binding
exactly once — the wrap/install call and the constructor-closure recording
happen only on the first, filling call — and, provided the slot's `ready`
flag is true after filling (here: `default_ready = true` and the symbol not
globally suppressed, so the immediate revert is not triggered), `is_active`
is true at the end of both calls and the slot is unchanged by the second
call. -/
theorem configure_twice_installs_once (n : Nat) (f t : String) (p : Int)
    (s : EngineState) (hn : n < s.slots.length) (hf : ¬ f = "")
    (hperm : is_permitted s f = true)
    (hslot : s.slots.getD n default = default)
    (hsup : s.suppresses.contains f = false)
    (hdr : s.default_ready = true) :
    (construct n f p t s).1 = true ∧
    (construct n f p t (construct n f p t s).2.1).1 = true ∧
    ((construct n f p t s).2.1.slots.getD n default).is_active = true ∧
    ((construct n f p t (construct n f p t s).2.1).2.1.slots.getD n
        default).is_active = true ∧
    ((construct n f p t s).2.1.slots.getD n default).ctorArgs
      = some (f, p, t) ∧
    (construct n f p t (construct n f p t s).2.1).2.1.slots.getD n default
      = (construct n f p t s).2.1.slots.getD n default ∧
    installCount ((construct n f p t s).2.2 ++
        (construct n f p t (construct n f p t s).2.1).2.2) = 1 := by
  have h1 := construct_fresh_eq n f t p s hf hperm hslot hsup hdr
  rw [h1]
  have hn1 : n < (s.slots.set n
      (filledActiveSlot f p t (deriveLabel t f))).length := by
    rw [List.length_set]; exact hn
  have hgd1 :
      ({ s with slots :=
          s.slots.set n (filledActiveSlot f p t (deriveLabel t f))
        } : EngineState).slots.getD n default
        = filledActiveSlot f p t (deriveLabel t f) := by
    simpa using slots_getD_set_self _ hn1
  have h2 := construct_active_eq n f t p
    ({ s with slots :=
        s.slots.set n (filledActiveSlot f p t (deriveLabel t f)) })
    hf hperm (by rw [hgd1]; rfl) (by rw [hgd1]; rfl) (by rw [hgd1]; rfl)
    (by rw [hgd1]; rfl)
  rw [h2]
  have hgd2 :
      (({ s with slots :=
          s.slots.set n (filledActiveSlot f p t (deriveLabel t f))
        } : EngineState).slots.set n
          (({ s with slots :=
              s.slots.set n (filledActiveSlot f p t (deriveLabel t f))
            } : EngineState).slots.getD n default)).getD n default
        = filledActiveSlot f p t (deriveLabel t f) := by
    rw [hgd1]
    exact slots_getD_set_self _ hn1
  refine ⟨rfl, rfl, ?_, ?_, ?_, ?_, ?_⟩
  · rw [hgd1]; rfl
  · exact (by rw [hgd2]; rfl)
  · rw [hgd1]; rfl
  · rw [hgd2, hgd1]
  · simp [installCount]

/-- Witness for C1's amended claim at a concrete input: slot 0 of the
pristine one-slot engine with `default_ready = true`, symbol `"malloc"`,
priority 0, tool label `"tool"`. -/
theorem configure_twice_installs_once_witness :
    (0 < defReadyState.slots.length ∧ ¬ "malloc" = "" ∧
      is_permitted defReadyState "malloc" = true ∧
      defReadyState.slots.getD 0 default = default ∧
      defReadyState.suppresses.contains "malloc" = false ∧
      defReadyState.default_ready = true) ∧
    ((construct 0 "malloc" 0 "tool" defReadyState).1 = true ∧
      ((construct 0 "malloc" 0 "tool" defReadyState).2.1.slots.getD 0
          default).is_active = true ∧
      installCount ((construct 0 "malloc" 0 "tool" defReadyState).2.2 ++
          (construct 0 "malloc" 0 "tool"
            (construct 0 "malloc" 0 "tool" defReadyState).2.1).2.2) = 1) := by
  have h := configure_twice_installs_once 0 "malloc" "tool" 0 defReadyState
    (by decide) (by decide) (by decide) (by decide) (by decide) (by decide)
  exact ⟨⟨by decide, by decide, by decide, by decide, by decide, by decide⟩,
    h.1, h.2.2.1, h.2.2.2.2.2.2⟩

/-! ### Preservation machinery for the lifecycle claims -/

theorem dtorCount_append (i : Nat) (a b : List Event) :
    dtorCount i (a ++ b) = dtorCount i a + dtorCount i b :=
  List.countP_append _ a b

theorem ctorCount_append (i : Nat) (a b : List Event) :
    ctorCount i (a ++ b) = ctorCount i a + ctorCount i b :=
  List.countP_append _ a b

theorem installCount_append (a b : List Event) :
    installCount (a ++ b) = installCount a + installCount b :=
  List.countP_append _ a b

theorem sameSkel_refl (s : EngineState) : SameSkel s s :=
  ⟨rfl, rfl, fun _ => rfl⟩

theorem sameSkel_trans {s1 s2 s3 : EngineState}
    (h12 : SameSkel s1 s2) (h23 : SameSkel s2 s3) : SameSkel s1 s3 :=
  ⟨h23.1.trans h12.1, h23.2.1.trans h12.2.1,
   fun i => (h23.2.2 i).trans (h12.2.2 i)⟩

theorem keepsCounters_refl (s : EngineState) : KeepsCounters s s :=
  ⟨rfl, rfl⟩

theorem keepsCounters_trans {s1 s2 s3 : EngineState}
    (h12 : KeepsCounters s1 s2) (h23 : KeepsCounters s2 s3) :
    KeepsCounters s1 s3 :=
  ⟨h23.1.trans h12.1, h23.2.trans h12.2⟩

theorem slots_getD_set_fin {l : List Slot} {n : Nat} {d : Slot}
    (hd : d.is_finalized = (l.getD n default).is_finalized) (i : Nat) :
    ((l.set n d).getD i default).is_finalized
      = (l.getD i default).is_finalized := by
  by_cases hi : i = n
  · subst hi
    by_cases hlt : i < l.length
    · rw [slots_getD_set_self _ hlt, hd]
    · rw [List.set_eq_of_length_le (Nat.le_of_not_lt hlt)]
  · rw [slots_getD_set_ne _ hi]

theorem slots_getD_map_fin (g : Slot → Slot)
    (hg : ∀ d, (g d).is_finalized = d.is_finalized) (l : List Slot)
    (i : Nat) :
    ((l.map g).getD i default).is_finalized
      = (l.getD i default).is_finalized := by
  induction l generalizing i with
  | nil => simp
  | cons a as ih =>
    cases i with
    | zero => simpa using hg a
    | succ j => simpa using ih j

theorem revert_skel (n : Nat) (s : EngineState) :
    SameSkel s (revert n s).2.1 ∧ KeepsCounters s (revert n s).2.1 ∧
    (revert n s).2.1.is_configured = s.is_configured ∧
    (∀ i, dtorCount i (revert n s).2.2 = 0) ∧
    (∀ i, ctorCount i (revert n s).2.2 = 0) := by
  by_cases hc : ((s.slots.getD n default).filled &&
      (s.slots.getD n default).is_active) = true
  · rw [revert_active_eq n s hc]
    refine ⟨⟨rfl, List.length_set .., fun i => slots_getD_set_fin ?_ i⟩,
      ⟨rfl, rfl⟩, rfl, ?_, ?_⟩
    · simp [revertedSlot]
    · intro i; simp [dtorCount]
    · intro i; simp [ctorCount]
  · rw [revert_inactive_eq n s hc]
    exact ⟨sameSkel_refl s, keepsCounters_refl s, rfl,
      fun i => rfl, fun i => rfl⟩

theorem revert_other_slots (n : Nat) (s : EngineState) (i : Nat)
    (hi : i ≠ n) :
    (revert n s).2.1.slots.getD i default = s.slots.getD i default := by
  by_cases hc : ((s.slots.getD n default).filled &&
      (s.slots.getD n default).is_active) = true
  · rw [revert_active_eq n s hc]
    exact slots_getD_set_ne _ hi
  · rw [revert_inactive_eq n s hc]

theorem debugStep_fin (d : Slot) :
    (debugStep d).is_finalized = d.is_finalized := by
  unfold debugStep; split <;> rfl

theorem fillStep_fin (n : Nat) (f : String) (p : Int) (t : String)
    (s : EngineState) (d : Slot) :
    (fillStep n f p t s d).1.is_finalized = d.is_finalized := by
  unfold fillStep; split <;> rfl

theorem fillStep_events (n : Nat) (f : String) (p : Int) (t : String)
    (s : EngineState) (d : Slot) (i : Nat) :
    dtorCount i (fillStep n f p t s d).2 = 0 ∧
    ctorCount i (fillStep n f p t s d).2 = 0 := by
  unfold fillStep; split <;> simp [dtorCount, ctorCount]

theorem actStep_fin (n : Nat) (d : Slot) :
    (actStep n d).1.is_finalized = d.is_finalized := by
  unfold actStep; split <;> rfl

theorem actStep_events (n : Nat) (d : Slot) (i : Nat) :
    dtorCount i (actStep n d).2 = 0 ∧ ctorCount i (actStep n d).2 = 0 := by
  unfold actStep; split <;> simp [dtorCount, ctorCount]

/-- The slot actually written back by `construct`'s fill/activate steps keeps
`is_finalized` unchanged. -/
theorem construct_written_fin (n : Nat) (f : String) (p : Int) (t : String)
    (s : EngineState) :
    (actStep n (fillStep n f p t s
        (debugStep (s.slots.getD n default))).1).1.is_finalized
      = (s.slots.getD n default).is_finalized := by
  rw [actStep_fin, fillStep_fin, debugStep_fin]

theorem skel_set (s : EngineState) (n : Nat) (d : Slot)
    (hd : d.is_finalized = (s.slots.getD n default).is_finalized) :
    SameSkel s { s with slots := s.slots.set n d } ∧
    KeepsCounters s { s with slots := s.slots.set n d } ∧
    ({ s with slots := s.slots.set n d } : EngineState).is_configured
      = s.is_configured :=
  ⟨⟨rfl, List.length_set .., fun i => slots_getD_set_fin hd i⟩,
   ⟨rfl, rfl⟩, rfl⟩

theorem construct_skel (n : Nat) (f : String) (p : Int) (t : String)
    (s : EngineState) :
    SameSkel s (construct n f p t s).2.1 ∧
    KeepsCounters s (construct n f p t s).2.1 ∧
    (construct n f p t s).2.1.is_configured = s.is_configured ∧
    (∀ i, dtorCount i (construct n f p t s).2.2 = 0) ∧
    (∀ i, ctorCount i (construct n f p t s).2.2 = 0) := by
  by_cases hf : f = ""
  · subst hf
    rw [construct_empty_name]
    exact ⟨sameSkel_refl s, keepsCounters_refl s, rfl,
      fun i => rfl, fun i => rfl⟩
  by_cases hperm : is_permitted s f = true
  · simp only [construct]
    rw [if_neg hf, hperm]
    rw [if_neg (by simp)]
    have hset := skel_set s n (constructSlot n f p t s)
      (construct_written_fin n f p t s)
    have hrev := revert_skel n (constructState n f p t s)
    have hfe := fillStep_events n f p t s (debugStep (s.slots.getD n default))
    have hae := actStep_events n
      (fillStep n f p t s (debugStep (s.slots.getD n default))).1
    split
    · -- `!ready`: the slot is written back, then immediately reverted
      exact ⟨sameSkel_trans hset.1 hrev.1,
        keepsCounters_trans hset.2.1 hrev.2.1,
        hrev.2.2.1.trans hset.2.2,
        fun i => by
          rw [dtorCount_append, dtorCount_append, (hfe i).1, (hae i).1,
            hrev.2.2.2.1 i],
        fun i => by
          rw [ctorCount_append, ctorCount_append, (hfe i).2, (hae i).2,
            hrev.2.2.2.2 i]⟩
    · -- `ready`: the slot is written back and kept installed
      exact ⟨hset.1, hset.2.1, hset.2.2,
        fun i => by rw [dtorCount_append, (hfe i).1, (hae i).1],
        fun i => by rw [ctorCount_append, (hfe i).2, (hae i).2]⟩
  · rw [Bool.not_eq_true] at hperm
    have hres : construct n f p t s = (false, s, []) := by
      simp only [construct]
      rw [if_neg hf, hperm]
      simp
    rw [hres]
    exact ⟨sameSkel_refl s, keepsCounters_refl s, rfl,
      fun i => rfl, fun i => rfl⟩

theorem dtorCount_cons (i : Nat) (e : Event) (ev : List Event) :
    dtorCount i (e :: ev) =
      dtorCount i ev + (if e = Event.dtorCall i then 1 else 0) := by
  cases e <;> simp [dtorCount, List.countP_cons]

theorem ctorCount_cons (i : Nat) (e : Event) (ev : List Event) :
    ctorCount i (e :: ev) =
      ctorCount i ev + (if e = Event.ctorCall i then 1 else 0) := by
  cases e <;> simp [ctorCount, List.countP_cons]

theorem runInit_skel (l : List (Nat × String × Int × String))
    (s : EngineState) :
    SameSkel s (runInit l s).1 ∧ KeepsCounters s (runInit l s).1 ∧
    (∀ i, dtorCount i (runInit l s).2 = 0) ∧
    (∀ i, ctorCount i (runInit l s).2 = 0) := by
  induction l generalizing s with
  | nil =>
    exact ⟨sameSkel_refl s, keepsCounters_refl s, fun i => rfl, fun i => rfl⟩
  | cons cmd cmds ih =>
    simp only [runInit]
    have hc := construct_skel cmd.1 cmd.2.1 cmd.2.2.1 cmd.2.2.2 s
    have hi := ih (construct cmd.1 cmd.2.1 cmd.2.2.1 cmd.2.2.2 s).2.1
    exact ⟨sameSkel_trans hc.1 hi.1, keepsCounters_trans hc.2.1 hi.2.1,
      fun i => by rw [dtorCount_append, hc.2.2.2.1 i, hi.2.2.1 i],
      fun i => by rw [ctorCount_append, hc.2.2.2.2 i, hi.2.2.2 i]⟩

theorem configureOnce_skel (s : EngineState) :
    SameSkel s (configureOnce s).1 ∧ KeepsCounters s (configureOnce s).1 ∧
    (∀ i, dtorCount i (configureOnce s).2 = 0) ∧
    (∀ i, ctorCount i (configureOnce s).2 = 0) := by
  unfold configureOnce
  split
  · exact ⟨sameSkel_refl s, keepsCounters_refl s, fun i => rfl, fun i => rfl⟩
  · have h := runInit_skel s.initializer { s with is_configured := true }
    exact ⟨sameSkel_trans ⟨rfl, rfl, fun _ => rfl⟩ h.1,
      keepsCounters_trans ⟨rfl, rfl⟩ h.2.1, h.2.2.1, h.2.2.2⟩

theorem runCtor_skel (n : Nat) (s : EngineState) :
    SameSkel s (runCtor n s).1 ∧ KeepsCounters s (runCtor n s).1 ∧
    (∀ i, dtorCount i (runCtor n s).2 = 0) := by
  unfold runCtor
  split
  · rename_i cap heq
    have hc := construct_skel n cap.1 cap.2.1 cap.2.2 s
    exact ⟨hc.1, hc.2.1, fun i => by
      rw [dtorCount_cons, hc.2.2.2.1 i]; simp⟩
  · exact ⟨sameSkel_refl s, keepsCounters_refl s, fun i => by
      rw [dtorCount_cons]; simp [dtorCount]⟩

theorem runCtor_count (n i : Nat) (s : EngineState) :
    ctorCount i (runCtor n s).2 = if n = i then 1 else 0 := by
  unfold runCtor
  split
  · rename_i cap heq
    have hc := construct_skel n cap.1 cap.2.1 cap.2.2 s
    rw [ctorCount_cons, hc.2.2.2.2 i]
    by_cases hn : n = i <;> simp [hn]
  · rw [ctorCount_cons]
    by_cases hn : n = i <;> simp [hn, ctorCount]

theorem runDtor_skel (n : Nat) (s : EngineState) :
    SameSkel s (runDtor n s).1 ∧ KeepsCounters s (runDtor n s).1 := by
  unfold runDtor
  split
  · have hr := revert_skel n s
    exact ⟨hr.1, hr.2.1⟩
  · exact ⟨sameSkel_refl s, keepsCounters_refl s⟩

theorem runDtor_count (n i : Nat) (s : EngineState) :
    dtorCount i (runDtor n s).2 = if n = i then 1 else 0 := by
  unfold runDtor
  split
  · have hr := revert_skel n s
    rw [dtorCount_cons, hr.2.2.2.1 i]
    by_cases hn : n = i <;> simp [hn]
  · rw [dtorCount_cons]
    by_cases hn : n = i <;> simp [hn, dtorCount]

theorem runDtor_ctor_count (n i : Nat) (s : EngineState) :
    ctorCount i (runDtor n s).2 = 0 := by
  unfold runDtor
  split
  · have hr := revert_skel n s
    rw [ctorCount_cons, hr.2.2.2.2 i]; simp
  · rw [ctorCount_cons]; simp [ctorCount]

theorem slotLoop_skel (f : Nat → EngineState → EngineState × List Event)
    (hf : ∀ j st, SameSkel st (f j st).1 ∧ KeepsCounters st (f j st).1)
    (idxs : List Nat) (s : EngineState) :
    SameSkel s (slotLoop f idxs s).1 ∧
    KeepsCounters s (slotLoop f idxs s).1 := by
  induction idxs generalizing s with
  | nil => exact ⟨sameSkel_refl s, keepsCounters_refl s⟩
  | cons j idxs ih =>
    simp only [slotLoop]
    exact ⟨sameSkel_trans (hf j s).1 (ih _).1,
      keepsCounters_trans (hf j s).2 (ih _).2⟩

theorem startCtorStep_skel (j : Nat) (st : EngineState) :
    SameSkel st (startCtorStep j st).1 ∧
    KeepsCounters st (startCtorStep j st).1 := by
  unfold startCtorStep
  split
  · exact ⟨(runCtor_skel j st).1, (runCtor_skel j st).2.1⟩
  · exact ⟨sameSkel_refl st, keepsCounters_refl st⟩

theorem stopDtorStep_skel (j : Nat) (st : EngineState) :
    SameSkel st (stopDtorStep j st).1 ∧
    KeepsCounters st (stopDtorStep j st).1 := by
  unfold stopDtorStep
  split
  · exact ⟨(runDtor_skel j st).1, (runDtor_skel j st).2⟩
  · exact ⟨sameSkel_refl st, keepsCounters_refl st⟩

theorem startCtorStep_dtor (j i : Nat) (st : EngineState) :
    dtorCount i (startCtorStep j st).2 = 0 := by
  unfold startCtorStep
  split
  · exact (runCtor_skel j st).2.2 i
  · rfl

theorem startCtorStep_count (j i : Nat) (st : EngineState) :
    ctorCount i (startCtorStep j st).2 =
      if j = i ∧ (st.slots.getD j default).is_finalized = false then 1
      else 0 := by
  unfold startCtorStep
  split
  · rename_i h
    rw [runCtor_count]
    rw [Bool.not_eq_true'] at h
    by_cases hj : j = i
    · subst hj
      rw [if_pos rfl, if_pos ⟨rfl, h⟩]
    · rw [if_neg hj, if_neg (fun hc => hj hc.1)]
  · rename_i h
    rw [Bool.not_eq_true'] at h
    simp only [Bool.not_eq_false] at h
    have hng : ¬ (j = i ∧ (st.slots.getD j default).is_finalized = false) := by
      intro hc
      rw [h] at hc
      simp at hc
    rw [if_neg hng]
    rfl

theorem stopDtorStep_count (j i : Nat) (st : EngineState) :
    dtorCount i (stopDtorStep j st).2 =
      if j = i ∧ (st.slots.getD j default).is_finalized = false then 1
      else 0 := by
  unfold stopDtorStep
  split
  · rename_i h
    rw [runDtor_count]
    rw [Bool.not_eq_true'] at h
    by_cases hj : j = i
    · subst hj
      rw [if_pos rfl, if_pos ⟨rfl, h⟩]
    · rw [if_neg hj, if_neg (fun hc => hj hc.1)]
  · rename_i h
    rw [Bool.not_eq_true'] at h
    simp only [Bool.not_eq_false] at h
    have hng : ¬ (j = i ∧ (st.slots.getD j default).is_finalized = false) := by
      intro hc
      rw [h] at hc
      simp at hc
    rw [if_neg hng]
    rfl

theorem slotLoop_start_count (idxs : List Nat) (s : EngineState) (i : Nat) :
    ctorCount i (slotLoop startCtorStep idxs s).2 =
      if (s.slots.getD i default).is_finalized = false then idxs.count i
      else 0 := by
  induction idxs generalizing s with
  | nil => simp [slotLoop, ctorCount]
  | cons j idxs ih =>
    simp only [slotLoop]
    rw [ctorCount_append, startCtorStep_count, ih,
      (startCtorStep_skel j s).1.2.2 i, List.count_cons]
    by_cases hj : j = i
    · subst hj
      split_ifs <;> simp_all <;> omega
    · split_ifs <;> simp_all <;> omega

theorem slotLoop_start_dtor (idxs : List Nat) (s : EngineState) (i : Nat) :
    dtorCount i (slotLoop startCtorStep idxs s).2 = 0 := by
  induction idxs generalizing s with
  | nil => rfl
  | cons j idxs ih =>
    simp only [slotLoop]
    rw [dtorCount_append, startCtorStep_dtor, ih]

theorem slotLoop_stop_count (idxs : List Nat) (s : EngineState) (i : Nat) :
    dtorCount i (slotLoop stopDtorStep idxs s).2 =
      if (s.slots.getD i default).is_finalized = false then idxs.count i
      else 0 := by
  induction idxs generalizing s with
  | nil => simp [slotLoop, dtorCount]
  | cons j idxs ih =>
    simp only [slotLoop]
    rw [dtorCount_append, stopDtorStep_count, ih,
      (stopDtorStep_skel j s).1.2.2 i, List.count_cons]
    by_cases hj : j = i
    · subst hj
      split_ifs <;> simp_all <;> omega
    · split_ifs <;> simp_all <;> omega

theorem startConfigStep_skel (t : Int) (s1 : EngineState) :
    SameSkel s1 (startConfigStep t s1).1 ∧
    KeepsCounters s1 (startConfigStep t s1).1 ∧
    (∀ i, dtorCount i (startConfigStep t s1).2 = 0) ∧
    (∀ i, ctorCount i (startConfigStep t s1).2 = 0) := by
  unfold startConfigStep
  split
  · exact configureOnce_skel s1
  · exact ⟨sameSkel_refl s1, keepsCounters_refl s1, fun i => rfl,
      fun i => rfl⟩

theorem startGlobalStep_skel (n : Int) (s2 : EngineState) :
    SameSkel s2 (startGlobalStep n s2).1 ∧
    KeepsCounters s2 (startGlobalStep n s2).1 ∧
    (∀ i, dtorCount i (startGlobalStep n s2).2 = 0) := by
  simp only [startGlobalStep, foldSlots]
  split
  · have ha := configureOnce_skel s2
    have hb := slotLoop_skel startCtorStep
      (fun j st => startCtorStep_skel j st)
      (List.range (configureOnce s2).1.slots.length) (configureOnce s2).1
    exact ⟨sameSkel_trans ha.1 hb.1, keepsCounters_trans ha.2.1 hb.2,
      fun i => by rw [dtorCount_append, ha.2.2.1 i, slotLoop_start_dtor]⟩
  · exact ⟨sameSkel_refl s2, keepsCounters_refl s2, fun i => rfl⟩

theorem startGlobalStep_ctor_fin (n : Int) (s2 : EngineState) (i : Nat)
    (hfin : (s2.slots.getD i default).is_finalized = true) :
    ctorCount i (startGlobalStep n s2).2 = 0 := by
  simp only [startGlobalStep, foldSlots]
  split
  · rw [ctorCount_append, (configureOnce_skel s2).2.2.2 i,
      slotLoop_start_count, (configureOnce_skel s2).1.2.2 i, hfin]
    simp
  · rfl

theorem startReadyStep_skel (t : Int) (s3 : EngineState) :
    SameSkel s3 (startReadyStep t s3) ∧
    KeepsCounters s3 (startReadyStep t s3) := by
  unfold startReadyStep
  split
  · exact ⟨⟨rfl, by simp,
      fun i => slots_getD_map_fin (fun d => { d with ready := d.filled })
        (fun d => rfl) s3.slots i⟩, ⟨rfl, rfl⟩⟩
  · exact ⟨sameSkel_refl s3, keepsCounters_refl s3⟩

theorem start_effects (s : EngineState) (hf : s.isFinalizing = false) :
    SameSkel s (start s).1 ∧
    (start s).1.started = s.started + 1 ∧
    (start s).1.thread_started = s.thread_started + 1 ∧
    (∀ i, dtorCount i (start s).2 = 0) := by
  simp only [start]
  rw [if_neg (by simp [hf])]
  dsimp only
  have h2 := startConfigStep_skel s.thread_started
    { s with started := s.started + 1, thread_started := s.thread_started + 1 }
  have h3 := startGlobalStep_skel s.started
    (startConfigStep s.thread_started
      { s with started := s.started + 1,
               thread_started := s.thread_started + 1 }).1
  have h4 := startReadyStep_skel s.thread_started
    (startGlobalStep s.started
      (startConfigStep s.thread_started
        { s with started := s.started + 1,
                 thread_started := s.thread_started + 1 }).1).1
  refine ⟨?_, ?_, ?_, ?_⟩
  · exact sameSkel_trans ⟨rfl, rfl, fun _ => rfl⟩
      (sameSkel_trans h2.1 (sameSkel_trans h3.1 h4.1))
  · rw [h4.2.1, h3.2.1.1, h2.2.1.1]
  · rw [h4.2.2, h3.2.1.2, h2.2.1.2]
  · intro i
    rw [dtorCount_append, h2.2.2.1 i, h3.2.2 i]

theorem start_ctor_fin (s : EngineState) (i : Nat)
    (hfin : (s.slots.getD i default).is_finalized = true) :
    ctorCount i (start s).2 = 0 := by
  by_cases hf : s.isFinalizing = true
  · simp [start, hf, ctorCount]
  · rw [Bool.not_eq_true] at hf
    simp only [start]
    rw [if_neg (by simp [hf])]
    dsimp only
    rw [ctorCount_append]
    rw [(startConfigStep_skel s.thread_started
      { s with started := s.started + 1,
               thread_started := s.thread_started + 1 }).2.2.2 i]
    rw [startGlobalStep_ctor_fin _ _ i (by
      rw [(startConfigStep_skel s.thread_started
        { s with started := s.started + 1,
                 thread_started := s.thread_started + 1 }).1.2.2 i]
      exact hfin)]

theorem stopReadyStep_skel (t : Int) (s1 : EngineState) :
    SameSkel s1 (stopReadyStep t s1) ∧
    KeepsCounters s1 (stopReadyStep t s1) := by
  unfold stopReadyStep
  split
  · exact ⟨⟨rfl, by simp,
      fun i => slots_getD_map_fin (fun d => { d with ready := false })
        (fun d => rfl) s1.slots i⟩, ⟨rfl, rfl⟩⟩
  · exact ⟨sameSkel_refl s1, keepsCounters_refl s1⟩

theorem stop_dtor_fin (s : EngineState) (i : Nat)
    (hfin : (s.slots.getD i default).is_finalized = true) :
    dtorCount i (stop s).2 = 0 := by
  simp only [stop, stopDtorPhase, foldSlots]
  split
  · rw [slotLoop_stop_count]
    have hC : ((stopReadyStep (s.thread_started - 1)
        { s with started := s.started - 1,
                 thread_started := s.thread_started - 1 }).slots.getD i
          default).is_finalized = true := by
      rw [(stopReadyStep_skel (s.thread_started - 1)
        { s with started := s.started - 1,
                 thread_started := s.thread_started - 1 }).1.2.2 i]
      exact hfin
    rw [hC]
    simp
  · rfl

theorem disableStep_skip (j : Nat) (st : EngineState)
    (h : (st.slots.getD j default).is_finalized = true) :
    disableStep j st = (st, []) := by
  simp only [disableStep]
  have h2 : (!(st.slots.getD j default).is_finalized) = false := by
    rw [h]; rfl
  rw [h2]
  rw [if_neg (by simp)]

theorem disableStep_other (j i : Nat) (st : EngineState) (hij : i ≠ j) :
    (disableStep j st).1.slots.getD i default = st.slots.getD i default ∧
    dtorCount i (disableStep j st).2 = 0 := by
  simp only [disableStep]
  split
  · constructor
    · show (runDtor j _).1.slots.getD i default = _
      unfold runDtor
      split
      · rw [revert_other_slots j _ i hij]
        exact slots_getD_set_ne _ hij
      · exact slots_getD_set_ne _ hij
    · rw [runDtor_count]
      rw [if_neg (fun h => hij h.symm)]
  · exact ⟨rfl, rfl⟩

theorem slotLoop_disable_untouched (idxs : List Nat) (st : EngineState)
    (i : Nat) (hfin : (st.slots.getD i default).is_finalized = true) :
    (slotLoop disableStep idxs st).1.slots.getD i default
      = st.slots.getD i default ∧
    dtorCount i (slotLoop disableStep idxs st).2 = 0 := by
  induction idxs generalizing st with
  | nil => exact ⟨rfl, rfl⟩
  | cons j idxs ih =>
    simp only [slotLoop]
    by_cases hj : j = i
    · subst hj
      rw [disableStep_skip j st hfin]
      simp only [List.nil_append]
      exact ih st hfin
    · have hstep := disableStep_other j i st (fun h => hj h.symm)
      have hfin' : ((disableStep j st).1.slots.getD i
          default).is_finalized = true := by
        rw [hstep.1]; exact hfin
      have hrest := ih (disableStep j st).1 hfin'
      constructor
      · rw [hrest.1, hstep.1]
      · rw [dtorCount_append, hstep.2, hrest.2]

theorem disable_finalized (s : EngineState) (i : Nat)
    (hfin : (s.slots.getD i default).is_finalized = true) :
    (disable s).1.slots.getD i default = s.slots.getD i default ∧
    dtorCount i (disable s).2 = 0 := by
  unfold disable
  split
  · simp only [foldSlots]
    exact slotLoop_disable_untouched _ _ i hfin
  · exact ⟨rfl, rfl⟩

/-- C4, amended: once `is_finalized` is true, the engine-driven lifecycle
operations never act on the slot again — `start` does not invoke its
constructor closure, `stop` and `disable` do not invoke its destructor
closure, and `disable` leaves the slot entirely unchanged; however (see the
counterexample) a direct `configure`/`construct` call is not blocked by
finalization and can make the slot active again, so "can never be reused"
does not hold for explicit reconfiguration. -/
theorem finalized_slot_lifecycle (s : EngineState) (i : Nat)
    (hfin : (s.slots.getD i default).is_finalized = true) :
    ctorCount i (start s).2 = 0 ∧
    dtorCount i (stop s).2 = 0 ∧
    dtorCount i (disable s).2 = 0 ∧
    (disable s).1.slots.getD i default = s.slots.getD i default :=
  ⟨start_ctor_fin s i hfin, stop_dtor_fin s i hfin,
   (disable_finalized s i hfin).2, (disable_finalized s i hfin).1⟩

/-- Witness for C4's amended claim at a concrete input: the one-slot engine
whose slot is finalized. -/
theorem finalized_slot_lifecycle_witness :
    (finalizedState.slots.getD 0 default).is_finalized = true ∧
    ctorCount 0 (start finalizedState).2 = 0 ∧
    dtorCount 0 (stop finalizedState).2 = 0 ∧
    dtorCount 0 (disable finalizedState).2 = 0 := by
  have h := finalized_slot_lifecycle finalizedState 0 (by decide)
  exact ⟨by decide, h.1, h.2.1, h.2.2.1⟩

theorem engine_eta1 (s : EngineState) (h1 : s.started = 1)
    (h2 : s.thread_started = 1) :
    ({ s with started := 1, thread_started := 1 } : EngineState) = s := by
  cases s
  simp_all

theorem stop_step_down (s : EngineState) (m : Int) (h1 : s.started = m)
    (h2 : s.thread_started = m) (hm : 2 ≤ m) :
    stop s = ({ s with started := m - 1, thread_started := m - 1 }, []) := by
  simp only [stop, stopReadyStep, stopDtorPhase, h1, h2]
  rw [if_neg (by omega), if_neg (by omega)]

theorem stop_final_eq (s : EngineState) (h1 : s.started = 1)
    (h2 : s.thread_started = 1) :
    stop s = foldSlots stopDtorStep
      { s with
        started := 0
        thread_started := 0
        slots := s.slots.map (fun d => { d with ready := false }) } := by
  simp only [stop, stopReadyStep, stopDtorPhase, h1, h2]
  rw [if_pos (by norm_num), if_pos (by norm_num)]
  rfl

theorem stop_final_effects (s : EngineState) (h1 : s.started = 1)
    (h2 : s.thread_started = 1) :
    (stop s).1.started = 0 ∧
    ∀ i, i < s.slots.length →
      (s.slots.getD i default).is_finalized = false →
      dtorCount i (stop s).2 = 1 := by
  rw [stop_final_eq s h1 h2]
  constructor
  · exact (slotLoop_skel stopDtorStep (fun j st => stopDtorStep_skel j st)
      _ _).2.1
  · intro i hlen hfin
    simp only [foldSlots]
    rw [slotLoop_stop_count]
    have hfin2 : ((({ s with
        started := 0
        thread_started := 0
        slots := s.slots.map (fun d => { d with ready := false })
      } : EngineState)).slots.getD i default).is_finalized = false :=
      (slots_getD_map_fin (fun d => { d with ready := false })
        (fun d => rfl) s.slots i).trans hfin
    rw [hfin2, if_pos rfl]
    have hlen2 : (({ s with
        started := 0
        thread_started := 0
        slots := s.slots.map (fun d => { d with ready := false })
      } : EngineState)).slots.length = s.slots.length := by simp
    rw [hlen2]
    exact List.count_eq_one_of_mem (List.nodup_range _)
      (List.mem_range.mpr hlen)

theorem startN_effects (k : Nat) (s : EngineState)
    (hf : s.isFinalizing = false) :
    SameSkel s (startN k s).1 ∧
    (startN k s).1.started = s.started + k ∧
    (startN k s).1.thread_started = s.thread_started + k ∧
    (startN k s).1.isFinalizing = false ∧
    (∀ i, dtorCount i (startN k s).2 = 0) := by
  induction k generalizing s with
  | zero =>
    exact ⟨sameSkel_refl s, by simp [startN], by simp [startN], hf,
      fun i => rfl⟩
  | succ k ih =>
    simp only [startN]
    have h1 := start_effects s hf
    have hf1 : (start s).1.isFinalizing = false := h1.1.1.trans hf
    have h2 := ih (start s).1 hf1
    refine ⟨sameSkel_trans h1.1 h2.1, ?_, ?_, h2.2.2.2.1, fun i => ?_⟩
    · rw [h2.2.1, h1.2.1]
      push_cast
      ring
    · rw [h2.2.2.1, h1.2.2.1]
      push_cast
      ring
    · rw [dtorCount_append, h1.2.2.2 i, h2.2.2.2.2 i]

theorem stopN_collapse (k : Nat) (s : EngineState)
    (h1 : s.started = (k : Int) + 1)
    (h2 : s.thread_started = (k : Int) + 1) :
    stopN (k + 1) s = stop { s with started := 1, thread_started := 1 } := by
  induction k generalizing s with
  | zero =>
    rw [engine_eta1 s (by omega) (by omega)]
    simp [stopN]
  | succ k ih =>
    have hs := stop_step_down s ((k : Int) + 1 + 1) (by omega) (by omega)
      (by omega)
    have hunfold : stopN (k + 1 + 1) s =
        ((stopN (k + 1) (stop s).1).1,
         (stop s).2 ++ (stopN (k + 1) (stop s).1).2) := rfl
    rw [hunfold, hs]
    dsimp only
    rw [List.nil_append]
    rw [ih ({ s with
        started := (k : Int) + 1 + 1 - 1
        thread_started := (k : Int) + 1 + 1 - 1 })
      (by dsimp only; omega) (by dsimp only; omega)]

/-- C3: for every `N ≥ 1`, a sequence of `N` nested `start()` calls followed
by `N` matching `stop()` calls returns the `started` counter to 0, and every
slot that is not finalized has its destructor closure invoked exactly once
over the whole sequence (by the final `stop`, which brings the global counter
to 0). -/
theorem nested_start_stop (N : Nat) (s : EngineState) (hN : 1 ≤ N)
    (h0 : s.started = 0) (ht : s.thread_started = 0)
    (hf : s.isFinalizing = false) :
    (stopN N (startN N s).1).1.started = 0 ∧
    ∀ i, i < s.slots.length →
      (s.slots.getD i default).is_finalized = false →
      dtorCount i ((startN N s).2 ++ (stopN N (startN N s).1).2) = 1 := by
  obtain ⟨k, rfl⟩ : ∃ k, N = k + 1 := ⟨N - 1, by omega⟩
  have hs := startN_effects (k + 1) s hf
  have hcol := stopN_collapse k (startN (k + 1) s).1
    (by rw [hs.2.1, h0]; push_cast; ring)
    (by rw [hs.2.2.1, ht]; push_cast; ring)
  rw [hcol]
  have hfe := stop_final_effects
    { (startN (k + 1) s).1 with started := 1, thread_started := 1 } rfl rfl
  constructor
  · exact hfe.1
  · intro i hlen hfin
    rw [dtorCount_append, hs.2.2.2.2 i]
    have hlen' : i < ({ (startN (k + 1) s).1 with
        started := 1
        thread_started := 1 } : EngineState).slots.length := by
      show i < (startN (k + 1) s).1.slots.length
      rw [hs.1.2.1]
      exact hlen
    have hfin' : (({ (startN (k + 1) s).1 with
        started := 1
        thread_started := 1 } : EngineState).slots.getD i
          default).is_finalized = false := by
      show ((startN (k + 1) s).1.slots.getD i default).is_finalized = false
      rw [hs.1.2.2 i]
      exact hfin
    rw [hfe.2 i hlen' hfin']

/-- Witness for C3 at a concrete input: two nested starts and two stops on
the two-slot engine, slot 0 filled with closures recorded, slot 1 empty. -/
theorem nested_start_stop_witness :
    (1 ≤ 2 ∧ twoSlotState.started = 0 ∧ twoSlotState.thread_started = 0 ∧
      twoSlotState.isFinalizing = false ∧ 0 < twoSlotState.slots.length ∧
      (twoSlotState.slots.getD 0 default).is_finalized = false) ∧
    (stopN 2 (startN 2 twoSlotState).1).1.started = 0 ∧
    dtorCount 0 ((startN 2 twoSlotState).2 ++
      (stopN 2 (startN 2 twoSlotState).1).2) = 1 := by
  have h := nested_start_stop 2 twoSlotState (by decide) (by decide)
    (by decide) (by decide)
  exact ⟨⟨by decide, by decide, by decide, by decide, by decide, by decide⟩,
    h.1, h.2 0 (by decide) (by decide)⟩

/-- C4, counterexample: a finalized (disabled) slot is reactivated by a
subsequent `construct` call for its own symbol: `construct` never checks
`is_finalized`, so it sets `is_active := true` again (here `ready` is true,
so the reactivation is not even reverted). -/
theorem finalized_reuse_cex :
    (finalizedState.slots.getD 0 default).is_finalized = true ∧
    (finalizedState.slots.getD 0 default).is_active = false ∧
    ((construct 0 "malloc" 0 "" finalizedState).2.1.slots.getD 0
        default).is_active = true := by decide

end Gotcha
